/-
  Verification of the mitigationDB rule-schema-inference engine
  (frontend utils/dynamicFields.ts) and of the spec of the rule
  expression evaluator.

  The JSON-like data handled by the engine is embedded as the inductive
  type `Json`; JavaScript objects become association lists whose order is
  key-insertion order, JS `Set` accumulation becomes insertion-ordered
  deduplicating list folds (`addUnique`), and the recursive `traverse`
  closures of the source become folds over the pre-order node sequence
  `preNodes` (the traversal visits a node, then each of its values left to
  right, which is exactly pre-order).  Numbers are modelled as integers:
  every number occurring in the repository rules and tests is integral.
-/
import Mathlib

/-- A JSON value.  Objects are association lists in key-insertion order
(JavaScript objects preserve insertion order; duplicate keys cannot occur). -/
inductive Json where
  | null : Json
  | bool (b : Bool) : Json
  | num (n : Int) : Json
  | str (s : String) : Json
  | arr (xs : List Json) : Json
  | obj (kvs : List (String × Json)) : Json

namespace Json

mutual

/-- Structural equality of JSON values. -/
def beq : Json → Json → Bool
  | .null, .null => true
  | .bool a, .bool b => a == b
  | .num a, .num b => a == b
  | .str a, .str b => a == b
  | .arr a, .arr b => beqArr a b
  | .obj a, .obj b => beqObj a b
  | _, _ => false

/-- Elementwise equality of JSON arrays. -/
def beqArr : List Json → List Json → Bool
  | [], [] => true
  | x :: xs, y :: ys => beq x y && beqArr xs ys
  | _, _ => false

/-- Elementwise equality of JSON objects. -/
def beqObj : List (String × Json) → List (String × Json) → Bool
  | [], [] => true
  | (k, v) :: xs, (l, w) :: ys => k == l && beq v w && beqObj xs ys
  | _, _ => false

end

mutual

theorem beq_iff : ∀ a b : Json, beq a b = true ↔ a = b
  | .null, b => by cases b <;> simp [beq]
  | .bool x, b => by cases b <;> simp [beq]
  | .num x, b => by cases b <;> simp [beq]
  | .str x, b => by cases b <;> simp [beq]
  | .arr xs, b => by
      cases b <;> simp [beq]
      exact beqArr_iff xs _
  | .obj kvs, b => by
      cases b <;> simp [beq]
      exact beqObj_iff kvs _

theorem beqArr_iff : ∀ xs ys : List Json, beqArr xs ys = true ↔ xs = ys
  | [], ys => by cases ys <;> simp [beqArr]
  | x :: xs, ys => by
      cases ys with
      | nil => simp [beqArr]
      | cons y ys =>
          simp only [beqArr, Bool.and_eq_true, List.cons.injEq]
          exact and_congr (beq_iff x y) (beqArr_iff xs ys)

theorem beqObj_iff : ∀ xs ys : List (String × Json), beqObj xs ys = true ↔ xs = ys
  | [], ys => by cases ys <;> simp [beqObj]
  | (k, v) :: xs, ys => by
      cases ys with
      | nil => simp [beqObj]
      | cons y ys =>
          obtain ⟨l, w⟩ := y
          simp only [beqObj, Bool.and_eq_true, List.cons.injEq, Prod.mk.injEq, beq_iff_eq]
          rw [beq_iff v w, beqObj_iff xs ys, and_assoc]

end

instance : DecidableEq Json :=
  fun a b => decidable_of_iff (beq a b = true) (beq_iff a b)

end Json

/-- JavaScript truthiness of a JSON value (`if (x)`): `null`, `false`, `0` and
the empty string are falsy; every array and every object is truthy. -/
def jsTruthy : Json → Bool
  | .null => false
  | .bool b => b
  | .num n => n != 0
  | .str s => !s.data.isEmpty
  | .arr _ => true
  | .obj _ => true

/-- Property access `obj[key]` on a JS object: the value stored under `key`,
or `undefined` (here `none`) when absent. -/
def lookupKey (kvs : List (String × Json)) (k : String) : Option Json :=
  match kvs with
  | [] => none
  | (l, v) :: rest => if l == k then some v else lookupKey rest k

/-- `Object.keys(x)`: own enumerable keys in insertion order.  For arrays and
strings JavaScript yields the index strings; for other primitives the list is
empty (the source only ever applies this to truthy values, so the `null` case
is unreachable there). -/
def objKeys : Json → List String
  | .obj kvs => kvs.map Prod.fst
  | .arr xs => (List.range xs.length).map toString
  | .str s => (List.range s.data.length).map toString
  | _ => []

/-- Adding one element to a JS `Set` kept as an insertion-ordered list:
a `Set` ignores an element it already holds and appends a new one.
(For the string and primitive values handled here, the `Set`'s SameValueZero
equality coincides with structural equality.) -/
def addUnique [BEq α] (xs : List α) (x : α) : List α :=
  if xs.contains x then xs else xs ++ [x]

/-- JS `s.startsWith(pre)`. -/
def strStartsWith (s pre : String) : Bool :=
  decide (pre.data <+: s.data)

/-- JS `s.includes(sub)` (substring containment). -/
def strContains (s sub : String) : Bool :=
  decide (sub.data <:+: s.data)

/-- JS `s.endsWith(suf)`. -/
def strEndsWith (s suf : String) : Bool :=
  decide (suf.data <:+ s.data)

/-- JS `p.split('.')[0]`: the characters before the first `'.'` (the whole
string when it has no dot, the empty string when it starts with one). -/
def firstSegment (p : String) : String :=
  ⟨p.data.takeWhile (fun c => !(c == '.'))⟩

mutual

/-- The sequence of values visited by the source's recursive
`function traverse(obj)` closures, in visit order: `traverse` works on the
node itself and then recurses into `Object.values(obj)` left to right
(for an array, into its elements), i.e. pre-order. -/
def preNodes : Json → List Json
  | .obj kvs => .obj kvs :: preNodesKVs kvs
  | .arr xs => .arr xs :: preNodesArr xs
  | j => [j]

/-- Pre-order visit sequence of the values of an object. -/
def preNodesKVs : List (String × Json) → List Json
  | [] => []
  | (_, v) :: kvs => preNodes v ++ preNodesKVs kvs

/-- Pre-order visit sequence of the elements of an array. -/
def preNodesArr : List Json → List Json
  | [] => []
  | x :: xs => preNodes x ++ preNodesArr xs

end

/-- The field name one visited node contributes in `extractFieldsFromLogic`'s
`traverse`: when `obj.var` is truthy and a string, the whole string unless it
starts with `"params."`; when `obj.var` is an array, the first dot-segment of
its first element unless that segment is empty or starts with `"params"`.
(A non-string first element of the array form would throw in JS; no rule can
reach that shape through the evaluator's path contract, and it contributes
nothing here.) -/
def varFieldName : Json → Option String
  | .obj kvs =>
    match lookupKey kvs "var" with
    | some v =>
      if jsTruthy v then
        match v with
        | .str s => if strStartsWith s "params." then none else some s
        | .arr es =>
          match es.head? with
          | some (.str p) =>
            let fld := firstSegment p
            if !(fld == "") && !(strStartsWith fld "params") then some fld else none
          | _ => none
        | _ => none
      else none
    | none => none
  | _ => none

/-- One step of `extractFieldsFromLogic`'s traversal: insert a visited
node's `var` contribution, if any, into the accumulated `Set`. -/
def varStep (acc : List String) (n : Json) : List String :=
  match varFieldName n with
  | some s => addUnique acc s
  | none => acc

/-- `extractFieldsFromLogic` from `utils/dynamicFields.ts`: walk the logic
tree, accumulate each visited node's `var` contribution into a `Set`, and
return `Array.from` of it (insertion order). -/
def extractFieldsFromLogic (logic : Json) : List String :=
  (preNodes logic).foldl varStep []

/-- Concatenate with `","` between elements, as `JSON.stringify` renders
array and object bodies. -/
def joinComma : List String → String
  | [] => ""
  | [s] => s
  | s :: rest => s ++ "," ++ joinComma rest

mutual

/-- `JSON.stringify`.  The strings occurring in rules contain no quote,
backslash or control characters, so the character escaping JSON.stringify
would perform is the identity on them and is not modelled. -/
def jsonStringify : Json → String
  | .null => "null"
  | .bool true => "true"
  | .bool false => "false"
  | .num n => toString n
  | .str s => "\"" ++ s ++ "\""
  | .arr xs => "[" ++ joinComma (stringifyArr xs) ++ "]"
  | .obj kvs => "\x7b" ++ joinComma (stringifyObj kvs) ++ "\x7d"

/-- Serialized elements of a JSON array. -/
def stringifyArr : List Json → List String
  | [] => []
  | x :: xs => jsonStringify x :: stringifyArr xs

/-- Serialized `"key":value` entries of a JSON object. -/
def stringifyObj : List (String × Json) → List String
  | [] => []
  | (k, v) :: kvs => ("\"" ++ k ++ "\":" ++ jsonStringify v) :: stringifyObj kvs

end

/-- A rule record as the schema-inference engine consumes it.  The remaining
record fields (category, explanation, mitigations, effective/retired dates)
are never read by the embedded functions and are omitted. -/
structure Rule where
  name : String
  logic : Json
  params : List (String × Json)
deriving DecidableEq

/-- The condition of `extractParameterImpliedFields`' `Window Type` branch
(`rule.params.window_mult && logicStr.includes('window_mult')`): the rule's
`params.window_mult` is truthy and its serialized logic contains the text
`window_mult`. -/
def windowImplied (r : Rule) : Bool :=
  (match lookupKey r.params "window_mult" with
   | some v => jsTruthy v
   | none => false)
    && strContains (jsonStringify r.logic) "window_mult"

/-- The condition of `extractParameterImpliedFields`' `vegetation` branch
(`rule.params.veg_div && logicStr.includes('veg_div')`). -/
def vegImplied (r : Rule) : Bool :=
  (match lookupKey r.params "veg_div" with
   | some v => jsTruthy v
   | none => false)
    && strContains (jsonStringify r.logic) "veg_div"

/-- One iteration of `extractParameterImpliedFields`' `rules.forEach` loop:
add `Window Type` when `windowImplied`, then `vegetation` when
`vegImplied`.  (`rule.params` itself is always an object here, hence
truthy; the source's `if (!rule.params) return` guard never fires.) -/
def impliedFieldsStep (acc : List String) (r : Rule) : List String :=
  let acc := if windowImplied r then addUnique acc "Window Type" else acc
  if vegImplied r then addUnique acc "vegetation" else acc

/-- `extractParameterImpliedFields` from `utils/dynamicFields.ts`: the
parameter-implied field names, collected into a `Set` over all rules. -/
def extractParameterImpliedFields (rules : List Rule) : List String :=
  rules.foldl impliedFieldsStep []

/-- The option values one visited node contributes in `getFieldOptions`'s
`traverse` for field `fieldName`: when `obj.in` is a two-element array whose
first element's `var` property is the bare string `fieldName` and whose
second element is an array, that array's elements (in order). -/
def inContrib (fieldName : String) : Json → List Json
  | .obj kvs =>
    match lookupKey kvs "in" with
    | some (.arr [varObj, optionsArray]) =>
      let hit :=
        match varObj with
        | .obj vkvs =>
          match lookupKey vkvs "var" with
          | some (.str s) => s == fieldName
          | _ => false
        | _ => false
      if hit then
        match optionsArray with
        | .arr opts => opts
        | _ => []
      else []
    | _ => []
  | _ => []

/-- One iteration of `getFieldOptions`' first `rules.forEach` loop: walk one
rule's logic and union every `in`-node option literal for the field into the
accumulated `Set`. -/
def inOptionsStep (fieldName : String) (acc : List Json) (r : Rule) : List Json :=
  (preNodes r.logic).foldl
    (fun acc n => (inContrib fieldName n).foldl addUnique acc) acc

/-- One iteration of `getFieldOptions`' `Window Type` backfill loop: union
in the keys of the rule's truthy `params.window_mult` map. -/
def windowKeysStep (acc : List Json) (r : Rule) : List Json :=
  match lookupKey r.params "window_mult" with
  | some v =>
    if jsTruthy v then
      (objKeys v).foldl (fun a k => addUnique a (Json.str k)) acc
    else acc
  | none => acc

/-- `getFieldOptions` from `utils/dynamicFields.ts`: walk every rule's logic
collecting `in`-node option literals for the field into a `Set`, then, for
the field `Window Type` only, also union in the keys of every rule's truthy
`params.window_mult` map. -/
def getFieldOptions (fieldName : String) (rules : List Rule) : List Json :=
  let opts := rules.foldl (inOptionsStep fieldName) []
  if fieldName == "Window Type" then
    rules.foldl windowKeysStep opts
  else opts

/-- The `FormField['type']` union of `utils/dynamicFields.ts`. -/
inductive FieldType where
  | text : FieldType
  | select : FieldType
  | boolean : FieldType
  | number : FieldType
  | array : FieldType
deriving DecidableEq

/-- `inferFieldType` from `utils/dynamicFields.ts`: boolean when the name
contains `has_` or `is_`; else number when it contains `distance` or `_ft`;
else array exactly for the name `vegetation`; else select when a non-empty
options argument was passed; else text. -/
def inferFieldType (fieldName : String) (options : Option (List Json)) : FieldType :=
  if strContains fieldName "has_" || strContains fieldName "is_" then .boolean
  else if strContains fieldName "distance" || strContains fieldName "_ft" then .number
  else if fieldName == "vegetation" then .array
  else
    match options with
    | some opts => if opts.length > 0 then .select else .text
    | none => .text

/-- The `for (const rule of rules)` loop of `getDefaultValue`'s
`Window Type` branch: the first key of the first truthy `params.window_mult`
(falling back to `"Double"` when that key list is empty or its first key is
the empty string, and when no rule has a truthy `window_mult`). -/
def windowTypeDefault : List Rule → Json
  | [] => .str "Double"
  | r :: rest =>
    match lookupKey r.params "window_mult" with
    | some v =>
      if jsTruthy v then
        match (objKeys v).head? with
        | some k => if !(k == "") then .str k else .str "Double"
        | none => .str "Double"
      else windowTypeDefault rest
    | none => windowTypeDefault rest

/-- `getDefaultValue` from `utils/dynamicFields.ts`: static defaults for
three known field names; a one-element seed array for `vegetation` using the
first `veg_div` key of any rule (else `"Tree"`); the first `window_mult` key
for `Window Type` (else `"Double"`); otherwise the empty string. -/
def getDefaultValue (fieldName : String) (rules : List Rule) : Json :=
  if fieldName == "attic_vent_has_screens" then .str "True"
  else if fieldName == "roof_type" then .str "Class A"
  else if fieldName == "wildfire_risk_category" then .str "A"
  else if fieldName == "vegetation" then
    let vegTypes :=
      rules.foldl
        (fun acc r =>
          match lookupKey r.params "veg_div" with
          | some v => if jsTruthy v then (objKeys v).foldl addUnique acc else acc
          | none => acc) []
    let firstType :=
      match vegTypes.head? with
      | some t => if !(t == "") then t else "Tree"
      | none => "Tree"
    .arr [.obj [("Type", .str firstType), ("distance_to_window", .num 100)]]
  else if fieldName == "Window Type" then windowTypeDefault rules
  else .str ""

/-- JS `\w`: an ASCII word character. -/
def isWordChar (c : Char) : Bool :=
  c.isAlphanum || c == '_'

/-- `replace(/\b\w/g, l => l.toUpperCase())` over a character list; the
argument records whether the previous character was a word character (so
`\b` matched right before a word character when it was not). -/
def capWordsAux : Bool → List Char → List Char
  | _, [] => []
  | prevWord, c :: cs =>
    let w := isWordChar c
    (if w && !prevWord then c.toUpper else c) :: capWordsAux w cs

/-- A form label: underscores to spaces, then capitalize at word starts
(`fieldName.replace(/_/g, ' ').replace(/\b\w/g, l => l.toUpperCase())`). -/
def jsLabel (s : String) : String :=
  ⟨capWordsAux false ((s.data.map (fun c => if c == '_' then ' ' else c)))⟩

/-- The `FormField` record of `utils/dynamicFields.ts` as `generateFormFields`
builds it: `options` is set only when the discovered option list is
non-empty; the optional `helpText`, `required` and `placeholder` members are
never set by `generateFormFields` and are omitted. -/
structure FormField where
  name : String
  label : String
  type : FieldType
  defaultValue : Json
  options : Option (List Json)
deriving DecidableEq

/-- One iteration of `generateFormFields`' first loop: union one rule's
extracted field names into the accumulated `Set`. -/
def logicFieldsStep (acc : List String) (r : Rule) : List String :=
  (extractFieldsFromLogic r.logic).foldl addUnique acc

/-- The `FormField` record `generateFormFields` builds for one field name. -/
def mkFormField (rules : List Rule) (fieldName : String) : FormField :=
  let options := getFieldOptions fieldName rules
  ⟨fieldName, jsLabel fieldName, inferFieldType fieldName none,
    getDefaultValue fieldName rules,
    if options.length > 0 then some options else none⟩

/-- `generateFormFields` from `utils/dynamicFields.ts`: collect the field
names of every rule's logic into a `Set`, add the parameter-implied names,
then build one `FormField` per name — the type from `inferFieldType` called
with the name only, the default from `getDefaultValue`, and `options` from
`getFieldOptions` when non-empty. -/
def generateFormFields (rules : List Rule) : List FormField :=
  let fieldNames := rules.foldl logicFieldsStep []
  let fieldNames :=
    (extractParameterImpliedFields rules).foldl addUnique fieldNames
  fieldNames.map (mkFormField rules)

/-- Splitting a character sequence at every `'.'`, as JS `p.split('.')`
does (so `""` gives `[""]`, `"a..b"` gives `["a","","b"]`). -/
def splitChars : List Char → List (List Char)
  | [] => [[]]
  | c :: cs =>
    if c == '.' then [] :: splitChars cs
    else
      match splitChars cs with
      | s :: ss => (c :: s) :: ss
      | [] => [[c]]

/-- JS `p.split('.')` as a list of strings. -/
def splitPath (p : String) : List String :=
  (splitChars p.data).map (fun l => ⟨l⟩)

/-- Modelled from the spec: the error kinds of §7 that abort an evaluation.
The backend evaluator (`services/rules_engine.py` and the `json-logic`
library it wraps) is not under `src/`; §4.1–§4.2 and §7 of the spec are the
authority for everything in this evaluator model. -/
inductive EvalError where
  | unknownOperator (op : String) : EvalError
  | malformedRule : EvalError
  | typeMismatch : EvalError
deriving DecidableEq

/-- Modelled from the spec (§4.1 Path Resolver): walk the remaining path
segments from a root value; an integer-parsing segment indexes a sequence
(out of range ⇒ absent), any other segment looks up a mapping key
(missing ⇒ absent), anything else is absent; absent is `null` and the
resolver never raises. -/
def resolvePath : Json → List String → Json
  | v, [] => v
  | v, seg :: rest =>
    match v with
    | .arr xs =>
      match seg.toNat? with
      | some i =>
        match xs[i]? with
        | some x => resolvePath x rest
        | none => .null
      | none => .null
    | .obj kvs =>
      match lookupKey kvs seg with
      | some x => resolvePath x rest
      | none => .null
    | _ => .null

/-- Modelled from the spec (§4.1): resolve a `var` path against the
observation, or against the rule's own `params` with the segment consumed
when the first segment is literally `params`. -/
def resolveVar (obs params : Json) (p : String) : Json :=
  match splitPath p with
  | "params" :: rest => resolvePath params rest
  | segs => resolvePath obs segs

/-- Modelled from the spec (§4.2): the evaluator's falsy values — `null`,
`false`, `0`, the empty string, and the empty sequence; everything else is
truthy.  (This deliberately differs from the browser-side `jsTruthy`, whose
`[]` is truthy.) -/
def evalTruthy : Json → Bool
  | .null => false
  | .bool b => b
  | .num n => n != 0
  | .str s => !s.data.isEmpty
  | .arr xs => !xs.isEmpty
  | .obj _ => true

/-- All the evaluated arguments as integers, when every one is a number
(the arithmetic operators require numeric arguments). -/
def asNums : List Json → Option (List Int)
  | [] => some []
  | .num n :: rest => (asNums rest).map (fun ns => n :: ns)
  | _ => none

mutual

/-- Modelled from the spec (§4.2 Expression Evaluator, §7): dispatch on node
shape.  A literal is itself (a literal array stays a literal, per the §3
data model); `{"var": p}` resolves `p` (bare string or one-element array);
`and`/`or` short-circuit returning the deciding evaluated value; `==`/`!=`
use structural domain equality (string booleans stay strings); the orderings
require two numbers and otherwise fail soft to `false`; `in` is membership
of the needle in the evaluated haystack under the same equality; arithmetic
requires numeric arguments (`TypeMismatch` otherwise) and `/` by zero fails
soft to `null`; an unknown operator key and a structurally malformed node
are fatal.  Numbers are modelled as integers, which covers every rule and
test value of the repository; the spec leaves empty `and`/`or` argument
lists unfixed and they evaluate here to `true`/`false` respectively. -/
def evaluate (obs params : Json) : Json → Except EvalError Json
  | .null => .ok .null
  | .bool b => .ok (.bool b)
  | .num n => .ok (.num n)
  | .str s => .ok (.str s)
  | .arr xs => .ok (.arr xs)
  | .obj kvs =>
    match kvs with
    | [(op, arg)] =>
      if op == "var" then
        match arg with
        | .str p => .ok (resolveVar obs params p)
        | .arr [.str p] => .ok (resolveVar obs params p)
        | _ => .error .malformedRule
      else
        match arg with
        | .arr args =>
          if op == "and" then evalAnd obs params args
          else if op == "or" then evalOr obs params args
          else if op == "==" then
            match args with
            | [a, b] => do
              let va ← evaluate obs params a
              let vb ← evaluate obs params b
              .ok (.bool (Json.beq va vb))
            | _ => .error .malformedRule
          else if op == "!=" then
            match args with
            | [a, b] => do
              let va ← evaluate obs params a
              let vb ← evaluate obs params b
              .ok (.bool (!(Json.beq va vb)))
            | _ => .error .malformedRule
          else if op == "<" || op == "<=" || op == ">" || op == ">=" then
            match args with
            | [a, b] => do
              let va ← evaluate obs params a
              let vb ← evaluate obs params b
              match va, vb with
              | .num x, .num y =>
                .ok (.bool
                  (if op == "<" then x < y
                   else if op == "<=" then x ≤ y
                   else if op == ">" then y < x
                   else y ≤ x))
              | _, _ => .ok (.bool false)
            | _ => .error .malformedRule
          else if op == "in" then
            match args with
            | [a, b] => do
              let needle ← evaluate obs params a
              let hay ← evaluate obs params b
              match hay with
              | .arr xs => .ok (.bool (xs.any (fun x => Json.beq needle x)))
              | _ => .ok (.bool false)
            | _ => .error .malformedRule
          else if op == "+" then do
            let vs ← evalArgs obs params args
            match asNums vs with
            | some ns => .ok (.num (ns.foldl (fun a n => a + n) 0))
            | none => .error .typeMismatch
          else if op == "*" then do
            let vs ← evalArgs obs params args
            match asNums vs with
            | some ns => .ok (.num (ns.foldl (fun a n => a * n) 1))
            | none => .error .typeMismatch
          else if op == "-" then do
            let vs ← evalArgs obs params args
            match asNums vs with
            | some [x] => .ok (.num (-x))
            | some [x, y] => .ok (.num (x - y))
            | some _ => .error .malformedRule
            | none => .error .typeMismatch
          else if op == "/" then do
            let vs ← evalArgs obs params args
            match asNums vs with
            | some [x, y] => if y == 0 then .ok .null else .ok (.num (x / y))
            | some _ => .error .malformedRule
            | none => .error .typeMismatch
          else .error (.unknownOperator op)
        | _ => .error .malformedRule
    | _ => .error .malformedRule

/-- Modelled from the spec (§4.2): `and` short-circuits on the first falsy
evaluated argument, returning it, else returns the last evaluated value. -/
def evalAnd (obs params : Json) : List Json → Except EvalError Json
  | [] => .ok (.bool true)
  | [x] => evaluate obs params x
  | x :: y :: rest => do
    let v ← evaluate obs params x
    if evalTruthy v then evalAnd obs params (y :: rest) else .ok v

/-- Modelled from the spec (§4.2): `or` short-circuits on the first truthy
evaluated argument, returning it, else returns the last evaluated value. -/
def evalOr (obs params : Json) : List Json → Except EvalError Json
  | [] => .ok (.bool false)
  | [x] => evaluate obs params x
  | x :: y :: rest => do
    let v ← evaluate obs params x
    if evalTruthy v then .ok v else evalOr obs params (y :: rest)

/-- Evaluate an operator's arguments left to right, propagating the first
failure. -/
def evalArgs (obs params : Json) : List Json → Except EvalError (List Json)
  | [] => .ok []
  | x :: xs => do
    let v ← evaluate obs params x
    let vs ← evalArgs obs params xs
    .ok (v :: vs)

end

section AddUniqueLemmas

variable {α : Type} [BEq α] [LawfulBEq α]

theorem mem_addUnique {xs : List α} {x a : α} :
    a ∈ addUnique xs x ↔ a ∈ xs ∨ a = x := by
  unfold addUnique
  by_cases h : xs.contains x = true
  · rw [if_pos h]
    constructor
    · exact Or.inl
    · rintro (ha | rfl)
      · exact ha
      · exact List.elem_iff.mp h
  · rw [if_neg h]
    simp

theorem mem_foldl_addUnique {l : List α} {acc : List α} {a : α} :
    a ∈ List.foldl addUnique acc l ↔ a ∈ acc ∨ a ∈ l := by
  induction l generalizing acc with
  | nil => simp
  | cons x xs ih =>
    rw [List.foldl_cons, ih, mem_addUnique]
    simp only [List.mem_cons]
    tauto

theorem foldl_addUnique_addUnique (acc base : List α) (x : α) :
    List.foldl addUnique acc (addUnique base x)
      = addUnique (List.foldl addUnique acc base) x := by
  by_cases h : base.contains x = true
  · rw [show addUnique base x = base from if_pos h]
    have hx : x ∈ List.foldl addUnique acc base :=
      mem_foldl_addUnique.mpr (Or.inr (List.elem_iff.mp h))
    rw [show addUnique (List.foldl addUnique acc base) x
          = List.foldl addUnique acc base from if_pos (List.elem_iff.mpr hx)]
  · rw [show addUnique base x = base ++ [x] from if_neg h, List.foldl_append]
    rfl

theorem foldl_addUnique_foldl (l : List α) (acc base : List α) :
    List.foldl addUnique acc (List.foldl addUnique base l)
      = List.foldl addUnique (List.foldl addUnique acc base) l := by
  induction l generalizing base with
  | nil => rfl
  | cons x xs ih =>
    rw [List.foldl_cons, List.foldl_cons, ih, foldl_addUnique_addUnique]

/-- Re-adding an already deduplicated list to a `Set` accumulator is the
same as adding the raw list. -/
theorem foldl_addUnique_dedup (l : List α) (acc : List α) :
    List.foldl addUnique acc (List.foldl addUnique [] l)
      = List.foldl addUnique acc l := by
  rw [foldl_addUnique_foldl]
  rfl

end AddUniqueLemmas

/-- A fold performing one inner fold per node equals one fold over the
flattened per-node lists. -/
theorem foldl_foldl_flatten {β γ : Type} (g : γ → β → γ) (h : α → List β)
    (l : List α) (acc : γ) :
    List.foldl (fun acc n => List.foldl g acc (h n)) acc l
      = List.foldl g acc ((l.map h).flatten) := by
  induction l generalizing acc with
  | nil => rfl
  | cons x xs ih =>
    rw [List.foldl_cons, List.map_cons, List.flatten_cons, List.foldl_append, ih]

/-- The raw (not yet deduplicated) field-name contributions of one rule's
logic tree, in visit order. -/
def fieldContribs (r : Rule) : List String :=
  (preNodes r.logic).filterMap varFieldName

theorem varStep_eq (acc : List String) (n : Json) :
    varStep acc n = List.foldl addUnique acc ((varFieldName n).toList) := by
  unfold varStep
  cases h : varFieldName n <;> simp [h]

/-- The field-extraction traversal is the deduplication, in first-seen
order, of the per-node contributions. -/
theorem extractFieldsFromLogic_eq (logic : Json) :
    extractFieldsFromLogic logic
      = List.foldl addUnique [] ((preNodes logic).filterMap varFieldName) := by
  unfold extractFieldsFromLogic
  have h : ∀ (l : List Json) (acc : List String),
      List.foldl varStep acc l
        = List.foldl addUnique acc (l.filterMap varFieldName) := by
    intro l
    induction l with
    | nil => intro acc; rfl
    | cons x xs ih =>
      intro acc
      rw [List.foldl_cons, List.filterMap_cons, ih]
      cases h : varFieldName x with
      | none => rw [varStep_eq, h]; rfl
      | some s => rw [varStep_eq, h]; rfl
  exact h (preNodes logic) []

/-- The raw parameter-implied names one rule contributes, in source order. -/
def impliedRawList (r : Rule) : List String :=
  (if windowImplied r then ["Window Type"] else [])
    ++ (if vegImplied r then ["vegetation"] else [])

theorem impliedFieldsStep_eq (acc : List String) (r : Rule) :
    impliedFieldsStep acc r = List.foldl addUnique acc (impliedRawList r) := by
  cases hw : windowImplied r <;> cases hv : vegImplied r <;>
    simp [impliedFieldsStep, impliedRawList, hw, hv]

theorem extractParameterImpliedFields_eq (rules : List Rule) :
    extractParameterImpliedFields rules
      = List.foldl addUnique [] ((rules.map impliedRawList).flatten) := by
  unfold extractParameterImpliedFields
  have h : ∀ (rs : List Rule) (acc : List String),
      rs.foldl impliedFieldsStep acc
        = List.foldl addUnique acc ((rs.map impliedRawList).flatten) := by
    intro rs
    induction rs with
    | nil => intro acc; rfl
    | cons r rs ih =>
      intro acc
      rw [List.foldl_cons, List.map_cons, List.flatten_cons, List.foldl_append,
        impliedFieldsStep_eq, ih]
  exact h rules []

/-- The deduplicated field-name list `generateFormFields` maps over. -/
def formFieldNames (rules : List Rule) : List String :=
  List.foldl addUnique []
    ((rules.map fieldContribs).flatten ++ (rules.map impliedRawList).flatten)

theorem logicFieldsStep_eq (acc : List String) (r : Rule) :
    logicFieldsStep acc r = List.foldl addUnique acc (fieldContribs r) := by
  unfold logicFieldsStep fieldContribs
  rw [show (extractFieldsFromLogic r.logic).foldl addUnique acc
        = List.foldl addUnique acc (extractFieldsFromLogic r.logic) from rfl,
    extractFieldsFromLogic_eq, foldl_addUnique_dedup]

theorem generateFormFields_eq (rules : List Rule) :
    generateFormFields rules = (formFieldNames rules).map (mkFormField rules) := by
  have h : ∀ (rs : List Rule) (acc : List String),
      List.foldl logicFieldsStep acc rs
        = List.foldl addUnique acc ((rs.map fieldContribs).flatten) := by
    intro rs
    induction rs with
    | nil => intro acc; rfl
    | cons r rs ih =>
      intro acc
      rw [List.foldl_cons, List.map_cons, List.flatten_cons, List.foldl_append,
        logicFieldsStep_eq, ih]
  show List.map (mkFormField rules)
      (List.foldl addUnique (List.foldl logicFieldsStep [] rules)
        (extractParameterImpliedFields rules))
    = _
  rw [h, extractParameterImpliedFields_eq, foldl_addUnique_dedup]
  unfold formFieldNames
  rw [List.foldl_append]

/-- The names of the generated fields are the deduplicated candidate list. -/
theorem generateFormFields_names (rules : List Rule) :
    (generateFormFields rules).map FormField.name = formFieldNames rules := by
  rw [generateFormFields_eq, List.map_map]
  have h : FormField.name ∘ mkFormField rules = id := by
    funext f
    rfl
  rw [h, List.map_id]

/-- Membership in the generated schema, through the name list. -/
theorem mem_generateFormFields {rules : List Rule} {fd : FormField} :
    fd ∈ generateFormFields rules
      ↔ ∃ f ∈ formFieldNames rules, fd = mkFormField rules f := by
  rw [generateFormFields_eq, List.mem_map]
  constructor
  · rintro ⟨f, hf, rfl⟩
    exact ⟨f, hf, rfl⟩
  · rintro ⟨f, hf, rfl⟩
    exact ⟨f, hf, rfl⟩

/-- The raw option contributions of one rule's logic for a field, in visit
order. -/
def inOptionContribs (fieldName : String) (r : Rule) : List Json :=
  ((preNodes r.logic).map (inContrib fieldName)).flatten

theorem inOptionsStep_eq (fieldName : String) (acc : List Json) (r : Rule) :
    inOptionsStep fieldName acc r
      = List.foldl addUnique acc (inOptionContribs fieldName r) := by
  unfold inOptionsStep inOptionContribs
  rw [foldl_foldl_flatten]

theorem strEndsWith_strContains {s suf : String} (h : strEndsWith s suf = true) :
    strContains s suf = true := by
  unfold strEndsWith at h
  unfold strContains
  simp only [decide_eq_true_eq] at h ⊢
  exact h.isInfix

/-- With no options argument, the inferred type is the name-driven one. -/
theorem inferFieldType_none (f : String) :
    inferFieldType f none
      = (if strContains f "has_" || strContains f "is_" then .boolean
         else if strContains f "distance" || strContains f "_ft" then .number
         else if f == "vegetation" then .array
         else .text) := by
  unfold inferFieldType
  split_ifs <;> rfl

theorem inferFieldType_none_ne_select (f : String) :
    inferFieldType f none ≠ .select := by
  rw [inferFieldType_none]
  split_ifs <;> simp

theorem inferFieldType_none_array_iff (f : String) :
    inferFieldType f none = .array ↔ f = "vegetation" := by
  rw [inferFieldType_none]
  split_ifs with h1 h2 h3
  · simp only [false_iff]
    intro hf
    rw [hf] at h1
    exact absurd h1 (by decide)
  · simp only [false_iff]
    intro hf
    rw [hf] at h2
    exact absurd h2 (by decide)
  · simp only [true_iff]
    exact (beq_iff_eq).mp h3
  · simp only [false_iff]
    intro hf
    rw [hf] at h3
    exact absurd h3 (by decide)

theorem inferFieldType_none_boolean (f : String)
    (h : inferFieldType f none = .boolean) :
    (strContains f "has_" || strContains f "is_") = true := by
  rw [inferFieldType_none] at h
  by_cases hb : (strContains f "has_" || strContains f "is_") = true
  · exact hb
  · rw [if_neg (by simp_all)] at h
    split_ifs at h

/-- For any field other than `Window Type`, the discovered options are the
deduplication, in first-seen order, of the `in`-node literals across the
rules' logic trees. -/
theorem getFieldOptions_eq (fieldName : String) (rules : List Rule)
    (h : (fieldName == "Window Type") = false) :
    getFieldOptions fieldName rules
      = List.foldl addUnique []
          ((rules.map (inOptionContribs fieldName)).flatten) := by
  unfold getFieldOptions
  rw [if_neg (by simp_all)]
  have hg : ∀ (rs : List Rule) (acc : List Json),
      rs.foldl (inOptionsStep fieldName) acc
        = List.foldl addUnique acc ((rs.map (inOptionContribs fieldName)).flatten) := by
    intro rs
    induction rs with
    | nil => intro acc; rfl
    | cons r rs ih =>
      intro acc
      rw [List.foldl_cons, List.map_cons, List.flatten_cons, List.foldl_append,
        inOptionsStep_eq, ih]
  exact hg rules []

/-
  Example rules used as concrete inputs by the counterexamples and
  witnesses below.
-/

/-- A rule whose logic is a single `in` test on `roof_type` (string-form
var), as in the repository's non-Class-A-roof rule. -/
def roofRule : Rule :=
  ⟨"Non-Class-A roof in risk zone",
    .obj [("in", .arr
      [ .obj [("var", .str "roof_type")],
        .arr [.str "Class A", .str "Class B"] ])],
    []⟩

/-- A rule whose logic holds one bare-string dotted var path. -/
def dottedVarRule : Rule :=
  ⟨"dotted", .obj [("var", .str "a.b")], []⟩

/-- A rule whose logic holds one array-form var path with a numeric second
segment on a field with no name-based type hint. -/
def treesRule : Rule :=
  ⟨"trees", .obj [("var", .arr [.str "trees.0.x"])], []⟩

/-- A rule whose logic references a boolean-named field other than the
statically defaulted `attic_vent_has_screens`. -/
def isFooRule : Rule :=
  ⟨"isfoo", .obj [("var", .str "is_foo")], []⟩

/-- The window-multiplier table of the repository's window-heat rule. -/
def windowMultCanon : Json :=
  .obj [("Single", .num 3), ("Double", .num 2), ("Tempered Glass", .num 1)]

/-- The repository's `Window heat exposure` rule: logic referencing
`params.window_mult`, params carrying the canonical window table. -/
def windowRule : Rule :=
  ⟨"Window heat exposure",
    .obj [("<", .arr
      [ .obj [("var", .arr [.str "vegetation.0.distance_to_window"])],
        .obj [("*", .arr
          [ .obj [("var", .str "params.base_ft")],
            .obj [("var", .str "params.window_mult.Double")] ])] ])],
    [("base_ft", .num 30), ("window_mult", windowMultCanon)]⟩

/-- A second rule carrying a different `window_mult` table, also referenced
from its logic. -/
def tripleWindowRule : Rule :=
  ⟨"other window rule",
    .obj [("var", .str "params.window_mult.Triple")],
    [("window_mult", .obj [("Triple", .num 1)])]⟩

/-- The division-by-zero node `{"/": [x, 0]}`. -/
def divByZero (x : Int) : Json :=
  .obj [("/", .arr [.num x, .num 0])]

/-
  Claim C8.
-/

/-- Claim C8: schema inference is deterministic — two calls of
`generateFormFields` on the same rule list (same order, same content)
return identical results, with the same fields in the same order, identical
types, option lists and defaults.  The embedding is a pure function of the
rule list, so the two results are definitionally the same value. -/
theorem claim_c8 (rules : List Rule) :
    generateFormFields rules = generateFormFields rules := rfl

/-
  Claim C9.
-/

/-- Claim C9: every `FormField` returned by `generateFormFields` has type
`text`, `boolean`, `number` or `array`; the type `select` is never produced
(the type comes from `inferFieldType` called without its options
argument). -/
theorem claim_c9 (rules : List Rule) (fd : FormField)
    (hfd : fd ∈ generateFormFields rules) :
    (fd.type = .text ∨ fd.type = .boolean ∨ fd.type = .number ∨ fd.type = .array)
      ∧ fd.type ≠ .select := by
  obtain ⟨f, _, rfl⟩ := mem_generateFormFields.mp hfd
  have ht : (mkFormField rules f).type = inferFieldType f none := rfl
  rw [ht]
  refine ⟨?_, inferFieldType_none_ne_select f⟩
  rw [inferFieldType_none]
  split_ifs <;> simp

/-- Witness for C9 at the concrete one-rule list built from `roofRule`. -/
theorem claim_c9_witness :
    (mkFormField [roofRule] "roof_type" ∈ generateFormFields [roofRule])
      ∧ ((mkFormField [roofRule] "roof_type").type = .text
          ∨ (mkFormField [roofRule] "roof_type").type = .boolean
          ∨ (mkFormField [roofRule] "roof_type").type = .number
          ∨ (mkFormField [roofRule] "roof_type").type = .array)
      ∧ (mkFormField [roofRule] "roof_type").type ≠ .select :=
  ⟨by decide, claim_c9 [roofRule] (mkFormField [roofRule] "roof_type") (by decide)⟩

/-
  Claim C6.
-/

/-- Claim C6: a field name containing `has_` or `is_` infers `boolean`;
otherwise a name containing `distance` or ending in `_ft` infers `number`
(the boolean rule takes precedence).  Stated for every options argument,
covering in particular the options-free call `generateFormFields` makes. -/
theorem claim_c6 (f : String) (options : Option (List Json)) :
    ((strContains f "has_" || strContains f "is_") = true →
      inferFieldType f options = .boolean)
    ∧ ((strContains f "has_" || strContains f "is_") = false →
      (strContains f "distance" || strEndsWith f "_ft") = true →
      inferFieldType f options = .number) := by
  constructor
  · intro h
    unfold inferFieldType
    rw [if_pos h]
  · intro h hn
    unfold inferFieldType
    rw [if_neg (by simp_all), if_pos]
    rcases Bool.or_eq_true_iff.mp hn with hd | he
    · rw [hd]
      rfl
    · rw [strEndsWith_strContains he]
      simp

/-
  Claim C10.  The backend evaluator is not part of the sources; `evaluate`
  is modelled from the spec (see its doc comment).
-/

/-- Counterexample to claim C10 as stated: `!=` is one of the spec's
comparison operators, and applied to the null result of `{"/": [10, 0]}`
against `5` it evaluates to `true`, not `false`. -/
theorem claim_c10_counterexample :
    evaluate (.obj []) (.obj [])
        (.obj [("!=", .arr [divByZero 10, .num 5])])
      = .ok (.bool true)
    ∧ ¬ (evaluate (.obj []) (.obj [])
          (.obj [("!=", .arr [divByZero 10, .num 5])])
        = .ok (.bool false)) := by
  constructor
  · rfl
  · intro h
    rw [show evaluate (.obj []) (.obj [])
          (.obj [("!=", .arr [divByZero 10, .num 5])])
        = Except.ok (Json.bool true) from rfl] at h
    simp at h

/-- Claim C10 as amended: for every numeric numerator `x`, evaluating
`{"/": [x, 0]}` yields `null` rather than an error, and every ordering
comparison (`<`, `<=`, `>`, `>=`) and the equality `==` applied to that
null result and a number evaluate to `false` without an error — while the
comparison `!=` evaluates to `true`. -/
theorem claim_c10_amended (x y : Int) (obs params : Json) :
    evaluate obs params (divByZero x) = .ok .null
    ∧ evaluate obs params (.obj [("<", .arr [divByZero x, .num y])])
        = .ok (.bool false)
    ∧ evaluate obs params (.obj [("<=", .arr [divByZero x, .num y])])
        = .ok (.bool false)
    ∧ evaluate obs params (.obj [(">", .arr [divByZero x, .num y])])
        = .ok (.bool false)
    ∧ evaluate obs params (.obj [(">=", .arr [divByZero x, .num y])])
        = .ok (.bool false)
    ∧ evaluate obs params (.obj [("==", .arr [divByZero x, .num y])])
        = .ok (.bool false)
    ∧ evaluate obs params (.obj [("!=", .arr [divByZero x, .num y])])
        = .ok (.bool true) :=
  ⟨rfl, rfl, rfl, rfl, rfl, rfl, rfl⟩

/-
  Claim C4.
-/

/-- Counterexample to claim C4 as stated: the field `trees` matches none of
the name rules and its only var path `trees.0.x` has the numeric second
segment `0`, yet the generated field type is `text` — the code infers
`array` only for the literal name `vegetation`, never from numeric path
segments. -/
theorem claim_c4_counterexample :
    (generateFormFields [treesRule]).map (fun fd => (fd.name, fd.type))
        = [("trees", FieldType.text)]
    ∧ strContains "trees" "has_" = false
    ∧ strContains "trees" "is_" = false
    ∧ strContains "trees" "distance" = false
    ∧ strEndsWith "trees" "_ft" = false
    ∧ (splitPath "trees.0.x")[1]? = some "0"
    ∧ "0".data.all Char.isDigit = true
    ∧ FieldType.text ≠ FieldType.array := by decide

/-- Claim C4 as amended: a generated field's type is `array` exactly when
the field's name is the literal `vegetation`; numeric second segments in
var paths play no part in the inference. -/
theorem claim_c4_amended (rules : List Rule) (fd : FormField)
    (hfd : fd ∈ generateFormFields rules) :
    fd.type = .array ↔ fd.name = "vegetation" := by
  obtain ⟨f, _, rfl⟩ := mem_generateFormFields.mp hfd
  show inferFieldType f none = .array ↔ f = "vegetation"
  exact inferFieldType_none_array_iff f

/-- A rule whose logic references the `vegetation` field by a bare var. -/
def vegVarRule : Rule :=
  ⟨"veg", .obj [("var", .str "vegetation")], []⟩

/-- Witness for the amended C4 at a concrete rule list. -/
theorem claim_c4_amended_witness :
    (mkFormField [vegVarRule] "vegetation" ∈ generateFormFields [vegVarRule])
    ∧ ((mkFormField [vegVarRule] "vegetation").type = .array
        ↔ (mkFormField [vegVarRule] "vegetation").name = "vegetation") :=
  ⟨by decide, claim_c4_amended [vegVarRule] _ (by decide)⟩

/-
  Claim C7.
-/

/-- Counterexample to claim C7 as stated: the field `is_foo` is inferred
`boolean`, but its default value is the empty string, not `"True"` — only
the statically defaulted `attic_vent_has_screens` gets `"True"`. -/
theorem claim_c7_counterexample :
    (generateFormFields [isFooRule]).map
        (fun fd => (fd.name, fd.type, fd.defaultValue))
      = [("is_foo", FieldType.boolean, Json.str "")]
    ∧ Json.str "" ≠ Json.str "True" := by decide

/-- Claim C7 as amended: a boolean-typed generated field defaults to the
string `"True"` exactly when it is the statically defaulted
`attic_vent_has_screens`; every other boolean-typed field defaults to the
empty string. -/
theorem claim_c7_amended (rules : List Rule) (fd : FormField)
    (hfd : fd ∈ generateFormFields rules) (hb : fd.type = .boolean) :
    fd.defaultValue
      = (if fd.name == "attic_vent_has_screens" then Json.str "True"
         else Json.str "") := by
  obtain ⟨f, _, rfl⟩ := mem_generateFormFields.mp hfd
  have hcond : (strContains f "has_" || strContains f "is_") = true :=
    inferFieldType_none_boolean f hb
  have hname : (mkFormField rules f).name = f := rfl
  have hdv : (mkFormField rules f).defaultValue = getDefaultValue f rules := rfl
  rw [hname, hdv]
  unfold getDefaultValue
  by_cases h1 : (f == "attic_vent_has_screens") = true
  · rw [if_pos h1, if_pos h1]
  · rw [if_neg h1, if_neg h1]
    by_cases h2 : (f == "roof_type") = true
    · rw [beq_iff_eq.mp h2] at hcond
      exact absurd hcond (by decide)
    · rw [if_neg h2]
      by_cases h3 : (f == "wildfire_risk_category") = true
      · rw [beq_iff_eq.mp h3] at hcond
        exact absurd hcond (by decide)
      · rw [if_neg h3]
        by_cases h4 : (f == "vegetation") = true
        · rw [beq_iff_eq.mp h4] at hcond
          exact absurd hcond (by decide)
        · rw [if_neg h4]
          by_cases h5 : (f == "Window Type") = true
          · rw [beq_iff_eq.mp h5] at hcond
            exact absurd hcond (by decide)
          · rw [if_neg h5]

/-- A rule whose logic references `attic_vent_has_screens` by a bare var. -/
def atticRule : Rule :=
  ⟨"Ember-vulnerable vents", .obj [("var", .str "attic_vent_has_screens")], []⟩

/-- Witness for the amended C7 at a concrete rule list. -/
theorem claim_c7_amended_witness :
    (mkFormField [atticRule] "attic_vent_has_screens"
        ∈ generateFormFields [atticRule])
    ∧ (mkFormField [atticRule] "attic_vent_has_screens").type = .boolean
    ∧ (mkFormField [atticRule] "attic_vent_has_screens").defaultValue
        = (if (mkFormField [atticRule] "attic_vent_has_screens").name
              == "attic_vent_has_screens" then Json.str "True"
           else Json.str "") :=
  ⟨by decide, by decide,
    claim_c7_amended [atticRule] _ (by decide) (by decide)⟩

/-
  Claim C3.
-/

/-- Counterexample to claim C3 as stated: for the dotted path `a.b`, the
string notation contributes the full path `a.b` while the array notation
contributes only the first segment `a`. -/
theorem claim_c3_counterexample :
    extractFieldsFromLogic (.obj [("var", .str "a.b")]) = ["a.b"]
    ∧ extractFieldsFromLogic (.obj [("var", .arr [.str "a.b"])]) = ["a"]
    ∧ (["a.b"] : List String) ≠ ["a"] := by decide

theorem takeWhile_no_dot (l : List Char) (h : l.contains '.' = false) :
    l.takeWhile (fun c => !(c == '.')) = l := by
  induction l with
  | nil => rfl
  | cons c cs ih =>
    rw [List.contains_cons, Bool.or_eq_false_iff] at h
    rw [List.takeWhile_cons, if_pos (by simp_all [BEq.comm]), ih h.2]

/-- Claim C3 as amended: the two var notations `{"var": p}` and
`{"var": [p]}` yield the same field discovery exactly on the paths the
repository's rules use — a path starting with `params.` (both contribute
nothing) or a dot-free path whose name does not start with `params` (both
contribute the path itself).  They genuinely differ on dotted non-params
paths (full path vs first segment, see the counterexample) and on dot-free
paths starting with the letters `params` (kept by the string form, dropped
by the array form). -/
theorem claim_c3_amended (p : String)
    (h : strStartsWith p "params." = true
      ∨ (p.data.contains '.' = false ∧ strStartsWith p "params" = false)) :
    extractFieldsFromLogic (.obj [("var", .str p)])
      = extractFieldsFromLogic (.obj [("var", .arr [.str p])]) := by
  have hv1 : varFieldName (.obj [("var", Json.str p)])
      = (if jsTruthy (Json.str p) then
           (if strStartsWith p "params." then none else some p)
         else none) := rfl
  have hv2 : varFieldName (.obj [("var", Json.arr [Json.str p])])
      = (if !(firstSegment p == "") && !(strStartsWith (firstSegment p) "params")
         then some (firstSegment p) else none) := rfl
  have hstr : extractFieldsFromLogic (.obj [("var", .str p)])
      = varStep [] (.obj [("var", .str p)]) := rfl
  have harr : extractFieldsFromLogic (.obj [("var", .arr [.str p])])
      = varStep [] (.obj [("var", .arr [.str p])]) := rfl
  rw [hstr, harr]
  rcases h with hp | ⟨hdot, hpre⟩
  · -- `params.`-prefixed: the string form is skipped by its prefix test,
    -- the array form because the first segment is literally `params`.
    obtain ⟨t, ht⟩ := of_decide_eq_true hp
    have hne : jsTruthy (Json.str p) = true := by
      show (!p.data.isEmpty) = true
      rw [← ht]
      rfl
    have hfs : firstSegment p = "params" := by
      show (⟨p.data.takeWhile (fun c => !(c == '.'))⟩ : String) = "params"
      rw [← ht]
      rfl
    have e1 : varStep [] (.obj [("var", Json.str p)]) = [] := by
      unfold varStep
      rw [hv1, hne, hp]
      rfl
    have e2 : varStep [] (.obj [("var", Json.arr [Json.str p])]) = [] := by
      unfold varStep
      rw [hv2, hfs]
      rfl
    rw [e1, e2]
  · -- dot-free, not `params`-prefixed: both forms contribute `p` itself
    -- (or nothing at all when `p` is empty).
    have hfs : firstSegment p = p := by
      show (⟨p.data.takeWhile (fun c => !(c == '.'))⟩ : String) = p
      rw [takeWhile_no_dot p.data hdot]
    cases hd : p.data with
    | nil =>
      have hpe : p = "" := by
        cases p
        simp_all
      rw [hpe]
      rfl
    | cons c cs =>
      have hne : jsTruthy (Json.str p) = true := by
        show (!p.data.isEmpty) = true
        rw [hd]
        rfl
      have hpd : strStartsWith p "params." = false := by
        by_contra hc
        rw [Bool.not_eq_false] at hc
        obtain ⟨t, ht⟩ := of_decide_eq_true hc
        have hps : strStartsWith p "params" = true := by
          refine decide_eq_true ?_
          exact ⟨'.' :: t, by rw [← ht]; rfl⟩
        rw [hps] at hpre
        exact absurd hpre (by decide)
      have hpeq : (p == "") = false := by
        by_contra hc
        rw [Bool.not_eq_false] at hc
        have hp0 := beq_iff_eq.mp hc
        rw [hp0] at hd
        simp at hd
      have e1 : varStep [] (.obj [("var", Json.str p)]) = [p] := by
        unfold varStep
        rw [hv1, hne, hpd]
        rfl
      have e2 : varStep [] (.obj [("var", Json.arr [Json.str p])]) = [p] := by
        unfold varStep
        rw [hv2, hfs, hpeq, hpre]
        rfl
      rw [e1, e2]

/-- Witness for the amended C3 at the concrete path `roof_type`. -/
theorem claim_c3_amended_witness :
    (strStartsWith "roof_type" "params." = true
      ∨ ("roof_type".data.contains '.' = false
          ∧ strStartsWith "roof_type" "params" = false))
    ∧ extractFieldsFromLogic (.obj [("var", .str "roof_type")])
        = extractFieldsFromLogic (.obj [("var", .arr [.str "roof_type"])]) :=
  ⟨by decide, claim_c3_amended "roof_type" (by decide)⟩

/-
  Claim C1.
-/

/-- Counterexample to claim C1 as stated: the rule list `[roofRule]` has an
`in` node on the var `roof_type`, and the generated field does carry the
node's literal options — but its type is `text`, not `select`, because
`generateFormFields` calls `inferFieldType` without the options argument. -/
theorem claim_c1_counterexample :
    (generateFormFields [roofRule]).map (fun fd => (fd.name, fd.type, fd.options))
      = [("roof_type", FieldType.text,
          some [Json.str "Class A", Json.str "Class B"])]
    ∧ FieldType.text ≠ FieldType.select := by decide

/-- The claim-side reading of C1 as amended: the option literals one node
contributes for field `f` — the second operand (a literal array) of an `in`
node whose first operand is the bare-string var `f`. -/
def inNodeOptionLiterals (fieldName : String) : Json → List Json
  | .obj kvs =>
    match lookupKey kvs "in" with
    | some (.arr [varObj, optionsArray]) =>
      let hit :=
        match varObj with
        | .obj vkvs =>
          match lookupKey vkvs "var" with
          | some (.str s) => s == fieldName
          | _ => false
        | _ => false
      if hit then
        match optionsArray with
        | .arr opts => opts
        | _ => []
      else []
    | _ => []
  | _ => []

/-- Claim C1 as amended: for a discovered field `f` other than
`Window Type`, the schema field's options equal the union (first-seen
order, duplicates merged) across rules of the second operands of `in` nodes
whose first operand is the bare-string var `f` — present only when
non-empty — while the field's type comes from `inferFieldType` on the name
alone and is never `select`.  (An `in` node whose first operand uses the
array var notation `{"var": [f]}` contributes no options: the code compares
`varObj?.var === fieldName` against the string only.) -/
theorem claim_c1_amended (rules : List Rule) (f : String)
    (hf : (f == "Window Type") = false) (fd : FormField)
    (hfd : fd ∈ generateFormFields rules) (hname : fd.name = f) :
    fd.type ≠ .select
    ∧ fd.options
        = (let opts := List.foldl addUnique []
              ((rules.map
                (fun r => ((preNodes r.logic).map (inNodeOptionLiterals f)).flatten)).flatten);
           if opts.length > 0 then some opts else none) := by
  obtain ⟨g, hg, rfl⟩ := mem_generateFormFields.mp hfd
  have hgf : g = f := hname
  subst hgf
  refine ⟨inferFieldType_none_ne_select g, ?_⟩
  have hopt : (mkFormField rules g).options
      = (if (getFieldOptions g rules).length > 0
         then some (getFieldOptions g rules) else none) := rfl
  rw [hopt, getFieldOptions_eq g rules hf]
  rfl

/-- Witness for the amended C1 at the concrete rule list `[roofRule]`. -/
theorem claim_c1_amended_witness :
    (("roof_type" : String) == "Window Type") = false
    ∧ (mkFormField [roofRule] "roof_type" ∈ generateFormFields [roofRule])
    ∧ (mkFormField [roofRule] "roof_type").name = "roof_type"
    ∧ ((mkFormField [roofRule] "roof_type").type ≠ .select
        ∧ (mkFormField [roofRule] "roof_type").options
            = (let opts := List.foldl addUnique []
                  (([roofRule].map
                    (fun r => ((preNodes r.logic).map
                        (inNodeOptionLiterals "roof_type")).flatten)).flatten);
               if opts.length > 0 then some opts else none)) :=
  ⟨by decide, by decide, rfl,
    claim_c1_amended [roofRule] "roof_type" (by decide) _ (by decide) rfl⟩

/-
  Claim C2.
-/

/-- Counterexample to claim C2 as stated: for the one-rule list whose logic
holds the bare-string var `a.b`, the candidate field name is the full
dotted path `a.b`, not its first segment `a`. -/
theorem claim_c2_counterexample :
    (generateFormFields [dottedVarRule]).map FormField.name = ["a.b"]
    ∧ firstSegment "a.b" = "a"
    ∧ (["a.b"] : List String) ≠ ["a"] := by decide

/-- The claim-side reading of C2 as amended: the candidate name one visited
node contributes — for a bare-string var, the full path (excluded when it
starts with `params.`); for an array-form var, the non-empty first segment
of its first element (excluded when it starts with the letters `params`). -/
def candidateFieldName : Json → Option String
  | .obj kvs =>
    match lookupKey kvs "var" with
    | some v =>
      if jsTruthy v then
        match v with
        | .str s => if strStartsWith s "params." then none else some s
        | .arr es =>
          match es.head? with
          | some (.str p) =>
            let fld := firstSegment p
            if !(fld == "") && !(strStartsWith fld "params") then some fld else none
          | _ => none
        | _ => none
      else none
    | none => none
  | _ => none

/-- Claim C2 as amended: the candidate field names are, in order of first
appearance (duplicates merged), the per-node var contributions of every
rule's logic in rule order and pre-order — the full path for a bare-string
var not starting with `params.`, the non-empty first segment for an
array-form var not starting with `params` — followed by the
parameter-implied names (`Window Type`, then `vegetation`) of rules whose
truthy `params.window_mult`/`params.veg_div` key is mentioned in their
serialized logic. -/
theorem claim_c2_amended (rules : List Rule) :
    (generateFormFields rules).map FormField.name
      = List.foldl addUnique []
          ((rules.map (fun r => (preNodes r.logic).filterMap candidateFieldName)).flatten
            ++ (rules.map impliedRawList).flatten) := by
  rw [generateFormFields_names]
  rfl

/-
  Claim C5.
-/

/-- The keys of the canonical window-multiplier table, as option values. -/
def windowCanonKeys : List Json :=
  [.str "Single", .str "Double", .str "Tempered Glass"]

set_option maxRecDepth 40000 in
/-- Counterexample to claim C5 as stated: the two-rule list
`[windowRule, tripleWindowRule]` contains the canonical window rule (with
`params.window_mult = {Single:3, Double:2, "Tempered Glass":1}` referenced
from its logic), yet the generated `Window Type` options are
`["Single","Double","Tempered Glass","Triple"]` — the second rule's table
is unioned in as well, so the options do not equal the canonical three. -/
theorem claim_c5_counterexample :
    lookupKey windowRule.params "window_mult" = some windowMultCanon
    ∧ strContains (jsonStringify windowRule.logic) "window_mult" = true
    ∧ windowRule ∈ [windowRule, tripleWindowRule]
    ∧ (generateFormFields [windowRule, tripleWindowRule]).map
        (fun fd => (fd.name, fd.options))
      = [("vegetation", none),
         ("Window Type", some [Json.str "Single", Json.str "Double",
            Json.str "Tempered Glass", Json.str "Triple"])]
    ∧ (some [Json.str "Single", Json.str "Double", Json.str "Tempered Glass",
        Json.str "Triple"]
        ≠ some windowCanonKeys) := by decide

theorem inOptionContribs_eq_nil (f : String) (r : Rule)
    (h : ∀ n ∈ preNodes r.logic, inContrib f n = []) :
    inOptionContribs f r = [] := by
  unfold inOptionContribs
  rw [List.flatten_eq_nil_iff]
  intro l hl
  rw [List.mem_map] at hl
  obtain ⟨n, hn, rfl⟩ := hl
  exact h n hn

theorem windowKeysStep_none (acc : List Json) (r : Rule)
    (hl : lookupKey r.params "window_mult" = none) :
    windowKeysStep acc r = acc := by
  unfold windowKeysStep
  rw [hl]

theorem windowKeysStep_some (acc : List Json) (r : Rule) (v : Json)
    (hl : lookupKey r.params "window_mult" = some v) :
    windowKeysStep acc r
      = (if jsTruthy v = true
         then (objKeys v).foldl (fun a k => addUnique a (Json.str k)) acc
         else acc) := by
  unfold windowKeysStep
  rw [hl]

/-- One `windowKeysStep` under the C5 hypotheses: it either keeps the
accumulator (no truthy `window_mult`) or turns it into the canonical key
list. -/
theorem windowKeysStep_canon (r : Rule)
    (hr : ∀ v, lookupKey r.params "window_mult" = some v →
        jsTruthy v = true → v = windowMultCanon)
    (acc : List Json) (hacc : acc = [] ∨ acc = windowCanonKeys) :
    (windowKeysStep acc r = acc
      ∧ ((∃ v, lookupKey r.params "window_mult" = some v ∧ jsTruthy v = true) →
          windowKeysStep acc r = windowCanonKeys))
    ∨ windowKeysStep acc r = windowCanonKeys := by
  cases hl : lookupKey r.params "window_mult" with
  | none =>
    left
    refine ⟨windowKeysStep_none acc r hl, ?_⟩
    rintro ⟨v, hv, -⟩
    exact absurd hv (by simp)
  | some v =>
    cases ht : jsTruthy v with
    | false =>
      left
      rw [windowKeysStep_some acc r v hl, if_neg (by rw [ht]; exact Bool.false_ne_true)]
      refine ⟨rfl, ?_⟩
      rintro ⟨w, hw, htw⟩
      rw [Option.some.injEq] at hw
      rw [← hw] at htw
      rw [htw] at ht
      exact absurd ht (by decide)
    | true =>
      right
      have hv : v = windowMultCanon := hr v hl ht
      subst hv
      rw [windowKeysStep_some acc r windowMultCanon hl, if_pos (by decide)]
      rcases hacc with rfl | rfl <;> decide

/-- Folding `windowKeysStep` over rules all of whose truthy `window_mult`
tables are canonical: starting from `[]` or the canonical keys, the result
stays one of the two, is absorbed at the canonical keys, and reaches them
as soon as one rule has a truthy `window_mult`. -/
theorem windowKeysFold (rs : List Rule)
    (hall : ∀ r ∈ rs, ∀ v, lookupKey r.params "window_mult" = some v →
        jsTruthy v = true → v = windowMultCanon) :
    ∀ acc, (acc = [] ∨ acc = windowCanonKeys) →
      ((rs.foldl windowKeysStep acc = [] ∨ rs.foldl windowKeysStep acc = windowCanonKeys)
        ∧ ((∃ r ∈ rs, ∃ v, lookupKey r.params "window_mult" = some v
              ∧ jsTruthy v = true) →
            rs.foldl windowKeysStep acc = windowCanonKeys)
        ∧ (acc = windowCanonKeys →
            rs.foldl windowKeysStep acc = windowCanonKeys)) := by
  induction rs with
  | nil =>
    intro acc hacc
    refine ⟨hacc, ?_, fun h => h⟩
    rintro ⟨r, hr, -⟩
    exact absurd hr (List.not_mem_nil r)
  | cons r rs ih =>
    intro acc hacc
    have hr : ∀ v, lookupKey r.params "window_mult" = some v →
        jsTruthy v = true → v = windowMultCanon :=
      fun v hv => hall r (List.mem_cons_self r rs) v hv
    have hall2 : ∀ r2 ∈ rs, ∀ v, lookupKey r2.params "window_mult" = some v →
        jsTruthy v = true → v = windowMultCanon :=
      fun r2 hr2 => hall r2 (List.mem_cons_of_mem r hr2)
    rw [List.foldl_cons]
    rcases windowKeysStep_canon r hr acc hacc with ⟨hkeep, hhit⟩ | hck
    · rw [hkeep]
      obtain ⟨h1, h2, h3⟩ := ih hall2 acc hacc
      refine ⟨h1, ?_, h3⟩
      rintro ⟨r2, hr2, v, hv, htv⟩
      rcases List.mem_cons.mp hr2 with rfl | hr2
      · have hacck : acc = windowCanonKeys :=
          hkeep.symm.trans (hhit ⟨v, hv, htv⟩)
        rw [hacck]
        exact (ih hall2 windowCanonKeys (Or.inr rfl)).2.2 rfl
      · exact h2 ⟨r2, hr2, v, hv, htv⟩
    · rw [hck]
      obtain ⟨h1, h2, h3⟩ := ih hall2 windowCanonKeys (Or.inr rfl)
      exact ⟨h1, fun _ => h3 rfl, fun _ => h3 rfl⟩

theorem inOptionsFold_nil (f : String) (rs : List Rule)
    (h : ∀ r ∈ rs, ∀ n ∈ preNodes r.logic, inContrib f n = []) :
    rs.foldl (inOptionsStep f) [] = [] := by
  induction rs with
  | nil => rfl
  | cons r rs ih =>
    have h1 := h r (List.mem_cons_self r rs)
    have h2 : ∀ r2 ∈ rs, ∀ n ∈ preNodes r2.logic, inContrib f n = [] :=
      fun r2 hr2 => h r2 (List.mem_cons_of_mem r hr2)
    rw [List.foldl_cons, inOptionsStep_eq, inOptionContribs_eq_nil f r h1]
    exact ih h2

/-- Under the C5 side conditions, the `Window Type` options are exactly the
canonical three keys. -/
theorem getFieldOptions_windowType (rules : List Rule)
    (hnoIn : ∀ r ∈ rules, ∀ n ∈ preNodes r.logic, inContrib "Window Type" n = [])
    (hall : ∀ r ∈ rules, ∀ v, lookupKey r.params "window_mult" = some v →
        jsTruthy v = true → v = windowMultCanon)
    (hsome : ∃ r ∈ rules, lookupKey r.params "window_mult" = some windowMultCanon) :
    getFieldOptions "Window Type" rules = windowCanonKeys := by
  show rules.foldl windowKeysStep (rules.foldl (inOptionsStep "Window Type") [])
      = windowCanonKeys
  rw [inOptionsFold_nil "Window Type" rules hnoIn]
  obtain ⟨r, hr, hl⟩ := hsome
  exact (windowKeysFold rules hall [] (Or.inl rfl)).2.1
    ⟨r, hr, windowMultCanon, hl, by decide⟩

/-- Claim C5 as amended: in a rule list where some rule carries the
canonical `window_mult` table `{Single:3, Double:2, "Tempered Glass":1}`
and references `window_mult` from its logic, where every truthy
`window_mult` parameter equals that canonical table, and where no rule's
logic contains an `in` node on the bare-string var `Window Type`, the
generated schema contains a `Window Type` field whose options are exactly
`["Single","Double","Tempered Glass"]`, in the parameter map's key order.
(Without the two side conditions the claim fails: another rule's differing
`window_mult` table or an `in` node on `Window Type` unions extra options
in, see the counterexample.) -/
theorem claim_c5_amended (rules : List Rule)
    (hsome : ∃ r ∈ rules, lookupKey r.params "window_mult" = some windowMultCanon
        ∧ strContains (jsonStringify r.logic) "window_mult" = true)
    (hall : ∀ r ∈ rules, ∀ v, lookupKey r.params "window_mult" = some v →
        jsTruthy v = true → v = windowMultCanon)
    (hnoIn : ∀ r ∈ rules, ∀ n ∈ preNodes r.logic, inContrib "Window Type" n = []) :
    ∃ fd ∈ generateFormFields rules, fd.name = "Window Type"
      ∧ fd.options = some windowCanonKeys := by
  obtain ⟨r, hr, hl, hstr⟩ := hsome
  have hw : windowImplied r = true := by
    unfold windowImplied
    rw [hl, hstr]
    decide
  have hmem : "Window Type" ∈ formFieldNames rules := by
    apply mem_foldl_addUnique.mpr
    right
    rw [List.mem_append]
    right
    rw [List.mem_flatten]
    refine ⟨impliedRawList r, List.mem_map_of_mem impliedRawList hr, ?_⟩
    unfold impliedRawList
    rw [hw]
    simp
  refine ⟨mkFormField rules "Window Type",
    mem_generateFormFields.mpr ⟨"Window Type", hmem, rfl⟩, rfl, ?_⟩
  have hopt : (mkFormField rules "Window Type").options
      = (if (getFieldOptions "Window Type" rules).length > 0
         then some (getFieldOptions "Window Type" rules) else none) := rfl
  rw [hopt, getFieldOptions_windowType rules hnoIn hall ⟨r, hr, hl⟩]
  rfl

set_option maxRecDepth 40000 in
/-- Witness for the amended C5 at the concrete one-rule list
`[windowRule]`. -/
theorem claim_c5_amended_witness :
    (∃ r ∈ [windowRule], lookupKey r.params "window_mult" = some windowMultCanon
        ∧ strContains (jsonStringify r.logic) "window_mult" = true)
    ∧ (∃ fd ∈ generateFormFields [windowRule], fd.name = "Window Type"
        ∧ fd.options = some windowCanonKeys) := by
  constructor
  · exact ⟨windowRule, List.mem_singleton.mpr rfl, rfl, by decide⟩
  · apply claim_c5_amended [windowRule]
    · exact ⟨windowRule, List.mem_singleton.mpr rfl, rfl, by decide⟩
    · intro r hr v hv htv
      rw [List.mem_singleton] at hr
      subst hr
      rw [show lookupKey windowRule.params "window_mult" = some windowMultCanon
            from rfl, Option.some.injEq] at hv
      exact hv.symm
    · intro r hr
      rw [List.mem_singleton] at hr
      subst hr
      decide

/-- Witness for C6, discharging the boolean branch at
`attic_vent_has_screens` and the number branch at `distance_to_window`. -/
theorem claim_c6_witness :
    (strContains "attic_vent_has_screens" "has_"
        || strContains "attic_vent_has_screens" "is_") = true
    ∧ inferFieldType "attic_vent_has_screens" none = .boolean
    ∧ (strContains "distance_to_window" "has_"
        || strContains "distance_to_window" "is_") = false
    ∧ (strContains "distance_to_window" "distance"
        || strEndsWith "distance_to_window" "_ft") = true
    ∧ inferFieldType "distance_to_window" none = .number :=
  ⟨by decide,
    (claim_c6 "attic_vent_has_screens" none).1 (by decide),
    by decide, by decide,
    (claim_c6 "distance_to_window" none).2 (by decide) (by decide)⟩
